import Mathlib

/-!
Verification of the resilience and asynchronous-orchestration core of the
microservices video platform: the per-target circuit breaker in the API
Gateway, the gateway routing contract, the asynchronous search-job
lifecycle (job store / job manager), and the reference frontend's polling
client (`pollResults` in the dashboard page and the search Redux slice).

The gateway and search-service backends are described by the repository's
README (state diagram and "Behavior" section) and exercised by its
integration tests; their Python sources are not part of the shared tree,
so the breaker and job-manager operations below are modelled from the
spec, as marked on each definition.  The polling client and the Redux
reducers are translated directly from the TypeScript sources.
-/

namespace Spec2Proof

/-! ## Circuit breaker -/

/-- Modelled from the spec: the three breaker states `Closed`, `Open`,
`HalfOpen` of the per-target circuit breaker (README "Resilience: Circuit
Breaker"); the Python gateway implementing it is not in the shared tree. -/
inductive BreakerMode where
  | Closed
  | Open
  | HalfOpen
deriving DecidableEq, Repr

/-- Modelled from the spec: the configuration surface the breaker depends
on — `failure_threshold` (default 5) and `reset_timeout` (default 30 s). -/
structure BreakerConfig where
  failureThreshold : Nat
  resetTimeout : Nat
deriving DecidableEq, Repr

/-- The documented defaults: trip after 5 consecutive failures, reset
timeout 30 seconds. -/
def defaultBreakerConfig : BreakerConfig :=
  { failureThreshold := 5, resetTimeout := 30 }

/-- Modelled from the spec: per-target breaker state — current mode,
consecutive-failure counter, `opened_at` timestamp, and whether the single
`HalfOpen` trial is in flight. -/
structure Breaker where
  mode : BreakerMode
  consecutiveFailures : Nat
  openedAt : Option Nat
  trialInFlight : Bool
deriving DecidableEq, Repr

/-- A fresh breaker: `Closed`, zero consecutive failures. -/
def initialBreaker : Breaker :=
  { mode := .Closed, consecutiveFailures := 0, openedAt := none,
    trialInFlight := false }

/-- Modelled from the spec: `allow() -> bool`.  `Closed` admits every
request; `Open` rejects until `reset_timeout` has elapsed since
`opened_at`, at which point the next request flips the breaker to
`HalfOpen` and is admitted as the single trial; in `HalfOpen` every
request other than the one in-flight trial is rejected.  Returns the
decision together with the updated breaker state (the state update and
the decision are one atomic step). -/
def allow (cfg : BreakerConfig) (b : Breaker) (now : Nat) : Bool × Breaker :=
  match b.mode with
  | .Closed => (true, b)
  | .Open =>
    match b.openedAt with
    | some t =>
      if cfg.resetTimeout ≤ now - t then
        (true, { b with mode := .HalfOpen, trialInFlight := true })
      else
        (false, b)
    | none => (false, b)
  | .HalfOpen =>
    if b.trialInFlight then (false, b)
    else (true, { b with trialInFlight := true })

/-- Modelled from the spec: `report(success)`.  In `Closed`, success
resets the consecutive-failure counter and failure increments it,
tripping to `Open` with `opened_at = now` when the configured threshold
is reached.  In `HalfOpen`, a successful trial closes the breaker with
the counter reset to 0 and a failed trial re-opens it with
`opened_at = now`.  `Open` never admits a call, so a report there leaves
the state untouched. -/
def report (cfg : BreakerConfig) (b : Breaker) (success : Bool) (now : Nat) :
    Breaker :=
  match b.mode with
  | .Closed =>
    if success then
      { b with consecutiveFailures := 0 }
    else
      let cf := b.consecutiveFailures + 1
      if cfg.failureThreshold ≤ cf then
        { b with mode := .Open, consecutiveFailures := cf,
                 openedAt := some now, trialInFlight := false }
      else
        { b with consecutiveFailures := cf }
  | .HalfOpen =>
    if success then
      { b with mode := .Closed, consecutiveFailures := 0,
               trialInFlight := false }
    else
      { b with mode := .Open, openedAt := some now, trialInFlight := false }
  | .Open => b

/-- A sequence of consecutive failure reports at the given times, with no
intervening success. -/
def reportFailures (cfg : BreakerConfig) (b : Breaker) (ts : List Nat) :
    Breaker :=
  ts.foldl (fun acc t => report cfg acc false t) b

/-! ## Gateway router -/

/-- Modelled from the spec: what the downstream target would do if the
call were attempted — respond normally, answer with a server-error status
class, time out, or be unreachable. -/
inductive DownstreamOutcome where
  | ok
  | serverError
  | timeout
  | unreachable
deriving DecidableEq, Repr

/-- Modelled from the spec: the gateway's uniform error contract.
`breakerOpen` means the breaker rejected the call without contacting the
target; the two downstream categories mean a call was attempted and
failed. -/
inductive GatewayResponse where
  | ok
  | breakerOpen
  | downstreamUnavailable
  | downstreamTimeout
deriving DecidableEq, Repr

/-- Result of routing one request: the response category, whether a
network call to the target was attempted, and the breaker state after the
request. -/
structure RouteResult where
  response : GatewayResponse
  attempted : Bool
  breaker : Breaker
deriving DecidableEq, Repr

/-- Modelled from the spec: the Gateway Router contract.  It consults
`breaker.allow()`; on false it immediately returns the breaker-open
category with no network attempt; on true it performs the call and
reports the outcome to the breaker (failure for network errors, timeouts
and server-error status classes). -/
def routeCall (cfg : BreakerConfig) (b : Breaker) (now : Nat)
    (d : DownstreamOutcome) : RouteResult :=
  let step := allow cfg b now
  if step.1 then
    match d with
    | .ok => ⟨.ok, true, report cfg step.2 true now⟩
    | .serverError => ⟨.downstreamUnavailable, true, report cfg step.2 false now⟩
    | .unreachable => ⟨.downstreamUnavailable, true, report cfg step.2 false now⟩
    | .timeout => ⟨.downstreamTimeout, true, report cfg step.2 false now⟩
  else
    ⟨.breakerOpen, false, step.2⟩

/-! ## Search jobs: job store and job manager -/

/-- Modelled from the spec: the four job statuses `Queued`, `Processing`,
`Completed`, `Failed` of an asynchronous search job. -/
inductive JobStatus where
  | queued
  | processing
  | completed
  | failed
deriving DecidableEq, Repr

/-- Modelled from the spec: one entry of a completed job's ordered result
sequence (`document_id`, `relevance_score`, `matched_excerpt`); the score
is kept abstract as a natural number, no claim depends on its scale. -/
structure ResultEntry where
  documentId : Nat
  relevanceScore : Nat
  matchedExcerpt : String
deriving DecidableEq, Repr

/-- Modelled from the spec: a `SearchJob` record — identifier, owning
principal, raw query, status, results, lifecycle timestamps and error
detail. -/
structure SearchJob where
  jobId : Nat
  ownerId : Nat
  query : String
  status : JobStatus
  results : List ResultEntry
  createdAt : Nat
  startedAt : Option Nat
  completedAt : Option Nat
  errorDetail : Option String
deriving DecidableEq, Repr

/-- Modelled from the spec: the Job Store — the durable record of all
jobs, plus the counter from which globally unique identifiers are
generated at creation. -/
structure JobStore where
  jobs : List SearchJob
  nextId : Nat
deriving DecidableEq, Repr

/-- The empty job store. -/
def emptyStore : JobStore := { jobs := [], nextId := 0 }

/-- Well-formedness of a store: job identifiers are pairwise distinct and
below the generation counter, so freshly generated identifiers never
collide. -/
def Wf (s : JobStore) : Prop :=
  (s.jobs.map (fun j => j.jobId)).Nodup ∧ ∀ j ∈ s.jobs, j.jobId < s.nextId

instance : DecidablePred Wf := fun s => by
  unfold Wf; infer_instance

/-- The wire response of a submission: the new job's identifier and its
initial status. -/
structure SubmitResponse where
  jobId : Nat
  status : JobStatus
deriving DecidableEq, Repr

/-- Modelled from the spec: `submit(owner_id, query) -> job_id` — creates
a `SearchJob` in `Queued` state with a fresh identifier, persists it, and
returns immediately with the identifier and the initial status. -/
def submit (s : JobStore) (owner : Nat) (q : String) (now : Nat) :
    SubmitResponse × JobStore :=
  let job : SearchJob :=
    { jobId := s.nextId, ownerId := owner, query := q,
      status := .queued, results := [], createdAt := now,
      startedAt := none, completedAt := none, errorDetail := none }
  (⟨job.jobId, job.status⟩,
   { jobs := s.jobs ++ [job], nextId := s.nextId + 1 })

/-- The in-place update a worker's claim performs on the job it selects:
`Queued` becomes `Processing` and `started_at` is set. -/
def claimJob (j : SearchJob) (now : Nat) : SearchJob :=
  { j with status := .processing, startedAt := some now }

/-- Scans the job list in order and claims the first `Queued` job,
returning the claimed snapshot and the updated list, or `none` when no
job is `Queued`. -/
def claimFirst (now : Nat) : List SearchJob →
    Option (SearchJob × List SearchJob)
  | [] => none
  | j :: rest =>
    if j.status = .queued then
      some (claimJob j now, claimJob j now :: rest)
    else
      match claimFirst now rest with
      | some (c, rest') => some (c, j :: rest')
      | none => none

/-- Modelled from the spec: `claim_next() -> SearchJob?` — atomically
selects one `Queued` job, transitions it to `Processing` with
`started_at = now`, and returns it; the selection and the transition are
a single atomic step on the store. -/
def claimNext (s : JobStore) (now : Nat) : Option SearchJob × JobStore :=
  match claimFirst now s.jobs with
  | some (c, jobs') => (some c, { s with jobs := jobs' })
  | none => (none, s)

/-- Modelled from the spec: `complete(job_id, results)` — transitions a
`Processing` job to `Completed`, recording `completed_at` and the
results; an error (leaving the store untouched) if the job is missing or
not in `Processing`. -/
def complete (s : JobStore) (id : Nat) (rs : List ResultEntry) (now : Nat) :
    Bool × JobStore :=
  match s.jobs.find? (fun j => j.jobId = id) with
  | some j =>
    if j.status = .processing then
      (true,
       { s with jobs := s.jobs.map (fun k =>
           if k.jobId = id then
             { k with status := .completed, results := rs,
                      completedAt := some now }
           else k) })
    else (false, s)
  | none => (false, s)

/-- Modelled from the spec: `fail(job_id, error_detail)` — transitions a
`Processing` job to `Failed`, recording `completed_at` and the error
detail; an error (leaving the store untouched) otherwise. -/
def fail (s : JobStore) (id : Nat) (err : String) (now : Nat) :
    Bool × JobStore :=
  match s.jobs.find? (fun j => j.jobId = id) with
  | some j =>
    if j.status = .processing then
      (true,
       { s with jobs := s.jobs.map (fun k =>
           if k.jobId = id then
             { k with status := .failed, completedAt := some now,
                      errorDetail := some err }
           else k) })
    else (false, s)
  | none => (false, s)

/-- Modelled from the spec: the error taxonomy of status retrieval —
`JobNotFound` for an unknown identifier, `JobAccessDenied` when the
requester is not the job's owner. -/
inductive JobError where
  | jobNotFound
  | jobAccessDenied
deriving DecidableEq, Repr

/-- The HTTP realization of the job-error taxonomy: 404 for an unknown
job, 403 for a foreign owner (as asserted by the integration tests). -/
def httpStatus : JobError → Nat
  | .jobNotFound => 404
  | .jobAccessDenied => 403

/-- Modelled from the spec: `get(job_id, requester_id) -> SearchJob` —
returns the current snapshot, failing with `NotFound` for an unknown
identifier and `Forbidden` when `requester_id != owner_id`.  The store is
returned unchanged: retrieval is side-effect-free. -/
def get (s : JobStore) (id requester : Nat) :
    Except JobError SearchJob × JobStore :=
  match s.jobs.find? (fun j => j.jobId = id) with
  | none => (.error .jobNotFound, s)
  | some j =>
    if j.ownerId = requester then (.ok j, s)
    else (.error .jobAccessDenied, s)

/-- One operation of the job manager's interface, as issued by a request
handler or a worker; concurrency is modelled as an arbitrary interleaved
sequence of these atomic operations. -/
inductive JobOp where
  | submit (owner : Nat) (q : String) (now : Nat)
  | claimNext (now : Nat)
  | complete (id : Nat) (rs : List ResultEntry) (now : Nat)
  | fail (id : Nat) (err : String) (now : Nat)
  | get (id requester : Nat)
deriving DecidableEq, Repr

/-- The store reached after performing one operation. -/
def applyOp (s : JobStore) : JobOp → JobStore
  | .submit owner q now => (submit s owner q now).2
  | .claimNext now => (claimNext s now).2
  | .complete id rs now => (complete s id rs now).2
  | .fail id err now => (fail s id err now).2
  | .get id requester => (get s id requester).2

/-- Runs a sequence of operations and collects, in order, the identifiers
of the jobs handed out by the `claim_next` calls in the sequence. -/
def runClaims (s : JobStore) : List JobOp → List Nat
  | [] => []
  | .claimNext now :: rest =>
    match claimNext s now with
    | (some c, s') => c.jobId :: runClaims s' rest
    | (none, s') => runClaims s' rest
  | op :: rest => runClaims (applyOp s op) rest

/-- A terminal status: `Completed` or `Failed`. -/
def JobStatus.isTerminal : JobStatus → Bool
  | .completed => true
  | .failed => true
  | _ => false

/-- A concrete job used by witnesses: job 0, owned by user 1, completed. -/
def sampleJob : SearchJob :=
  { jobId := 0, ownerId := 1, query := "alpha", status := .completed,
    results := [⟨7, 1, "alpha clip"⟩], createdAt := 0, startedAt := some 1,
    completedAt := some 2, errorDetail := none }

/-- A concrete one-job store used by witnesses. -/
def sampleStore : JobStore := { jobs := [sampleJob], nextId := 1 }

/-! ## Reference client: polling loop (`pollResults` in the dashboard page) -/

/-- The outcome of one dispatched `getSearchResults` poll as the client
observes it: the thunk either fulfilled with a payload carrying a status
string, or was rejected. -/
inductive PollOutcome where
  | fulfilled (status : String)
  | rejected
deriving DecidableEq, Repr

/-- The delay passed to `setTimeout(pollResults, 500)` in the client's
polling loop. -/
def pollDelayMs : Nat := 500

/-- The client's termination test, from `pollResults`: the loop returns
exactly when the dispatch fulfilled and the payload's status is the
string `completed`; any other outcome falls through to the `setTimeout`
rescheduling. -/
def pollStops : PollOutcome → Bool
  | .fulfilled s => s == "completed"
  | .rejected => false

/-- Whether the `n`-th poll of the loop is ever issued, given the stream
of poll outcomes: poll 0 always runs, and poll `n+1` runs iff poll `n`
ran and did not hit the termination test. -/
def pollActive (responses : Nat → PollOutcome) : Nat → Bool
  | 0 => true
  | n + 1 => pollActive responses n && !pollStops (responses n)

/-! ## Reference client: search Redux slice -/

/-- A search-result entry as typed in the frontend slice: `video_id`,
`title`, `relevance_score`, `matched_text`. -/
structure SearchResult where
  videoId : Nat
  title : String
  relevanceScore : Int
  matchedText : String
deriving DecidableEq, Repr

/-- The slice's `SearchState`: `results`, `loading`, `error`,
`currentJobId`. -/
structure SearchState where
  results : List SearchResult
  loading : Bool
  error : Option String
  currentJobId : Option String
deriving DecidableEq, Repr

/-- The slice's initial state. -/
def initialSearchState : SearchState :=
  { results := [], loading := false, error := none, currentJobId := none }

/-- The payload of a fulfilled `getSearchResults` dispatch: the job's
status string and, possibly, its results. -/
structure JobStatusPayload where
  status : String
  results : Option (List SearchResult)
deriving DecidableEq, Repr

/-- The `getSearchResults.fulfilled` reducer of the search slice: when
the payload's status is `completed` it stores `payload.results || []`
and clears `loading`; otherwise the state is returned untouched. -/
def getSearchResultsFulfilled (st : SearchState) (p : JobStatusPayload) :
    SearchState :=
  if p.status == "completed" then
    { st with results := p.results.getD [], loading := false }
  else
    st

/-! ## Breaker lemmas -/

lemma report_open_eq (cfg : BreakerConfig) {b : Breaker} (s : Bool) (t : Nat)
    (hm : b.mode = .Open) : report cfg b s t = b := by
  obtain ⟨m, cf, oa, tf⟩ := b
  cases m <;> simp_all [report]

lemma reportFailures_open (cfg : BreakerConfig) (ts : List Nat) :
    ∀ {b : Breaker}, b.mode = .Open → reportFailures cfg b ts = b := by
  induction ts with
  | nil => intro b _; rfl
  | cons t rest ih =>
    intro b hm
    have h1 : report cfg b false t = b := report_open_eq cfg false t hm
    show reportFailures cfg (report cfg b false t) rest = b
    rw [h1]
    exact ih hm

lemma report_closed_failure (cfg : BreakerConfig) {b : Breaker} (t : Nat)
    (hm : b.mode = .Closed) :
    report cfg b false t =
      if cfg.failureThreshold ≤ b.consecutiveFailures + 1 then
        { b with mode := .Open, consecutiveFailures := b.consecutiveFailures + 1,
                 openedAt := some t, trialInFlight := false }
      else
        { b with consecutiveFailures := b.consecutiveFailures + 1 } := by
  obtain ⟨m, cf, oa, tf⟩ := b
  cases m <;> simp_all [report]

lemma reportFailures_trips (cfg : BreakerConfig) :
    ∀ (ts : List Nat) (b : Breaker), b.mode = .Closed →
      b.consecutiveFailures < cfg.failureThreshold →
      cfg.failureThreshold ≤ b.consecutiveFailures + ts.length →
      (reportFailures cfg b ts).mode = .Open ∧
        (reportFailures cfg b ts).openedAt.isSome = true := by
  intro ts
  induction ts with
  | nil =>
    intro b _ h2 h3
    simp only [List.length_nil, Nat.add_zero] at h3
    omega
  | cons t rest ih =>
    intro b hm h2 h3
    have hstep : reportFailures cfg b (t :: rest) =
        reportFailures cfg (report cfg b false t) rest := rfl
    rw [hstep, report_closed_failure cfg t hm]
    by_cases hT : cfg.failureThreshold ≤ b.consecutiveFailures + 1
    · rw [if_pos hT]
      set bo : Breaker :=
        { b with mode := .Open,
                 consecutiveFailures := b.consecutiveFailures + 1,
                 openedAt := some t, trialInFlight := false } with hbo
      have ho : bo.mode = .Open := rfl
      rw [reportFailures_open cfg rest ho]
      exact ⟨rfl, rfl⟩
    · rw [if_neg hT]
      refine ih _ hm ?_ ?_
      · show b.consecutiveFailures + 1 < cfg.failureThreshold
        omega
      · show cfg.failureThreshold ≤ b.consecutiveFailures + 1 + rest.length
        simp only [List.length_cons] at h3
        omega

/-- C1: starting from `Closed` (with the spec's invariant that the
consecutive-failure counter is below the threshold), any sequence of
`N ≥ failure_threshold` consecutive failure reports with no intervening
success leaves the breaker `Open` with `opened_at` set; moreover the
failure report that reaches the threshold performs the transition and
records `opened_at = now` at that instant. -/
theorem breaker_trips_after_threshold_failures (cfg : BreakerConfig)
    (b : Breaker) (ts : List Nat)
    (hm : b.mode = .Closed)
    (hinv : b.consecutiveFailures < cfg.failureThreshold)
    (hN : cfg.failureThreshold ≤ ts.length) :
    (reportFailures cfg b ts).mode = .Open ∧
      (reportFailures cfg b ts).openedAt.isSome = true ∧
      ∀ (b' : Breaker) (now : Nat), b'.mode = .Closed →
        cfg.failureThreshold ≤ b'.consecutiveFailures + 1 →
        (report cfg b' false now).mode = .Open ∧
          (report cfg b' false now).openedAt = some now := by
  have hmain := reportFailures_trips cfg ts b hm hinv (by omega)
  refine ⟨hmain.1, hmain.2, ?_⟩
  intro b' now hm' hT'
  rw [report_closed_failure cfg now hm', if_pos hT']
  exact ⟨rfl, rfl⟩

/-- Witness for C1 at the documented defaults: a fresh breaker receiving
5 consecutive failure reports ends `Open`. -/
theorem breaker_trips_after_threshold_failures_witness :
    (reportFailures defaultBreakerConfig initialBreaker [1, 2, 3, 4, 5]).mode
      = .Open :=
  (breaker_trips_after_threshold_failures defaultBreakerConfig initialBreaker
    [1, 2, 3, 4, 5] rfl (by decide) (by decide)).1

/-- C2: while the breaker is `Open` and `now - opened_at` is still below
`reset_timeout`, `allow()` returns false with the state unchanged, and
the gateway rejects the request with the breaker-open category without
attempting any downstream call. -/
theorem breaker_open_rejects_before_timeout (cfg : BreakerConfig)
    (b : Breaker) (t now : Nat)
    (hm : b.mode = .Open) (ho : b.openedAt = some t)
    (hb : now - t < cfg.resetTimeout) :
    allow cfg b now = (false, b) ∧
      ∀ d : DownstreamOutcome,
        (routeCall cfg b now d).response = .breakerOpen ∧
          (routeCall cfg b now d).attempted = false ∧
          (routeCall cfg b now d).breaker = b := by
  have hallow : allow cfg b now = (false, b) := by
    obtain ⟨m, cf, oa, tf⟩ := b
    simp only at hm ho
    subst hm; subst ho
    simp [allow, Nat.not_le.mpr hb]
  refine ⟨hallow, ?_⟩
  intro d
  simp [routeCall, hallow]

/-- Witness for C2: an `Open` breaker 10 time units after opening, with
the default 30-unit reset timeout, rejects a request breaker-open with no
network attempt. -/
theorem breaker_open_rejects_before_timeout_witness :
    (routeCall defaultBreakerConfig
      { mode := .Open, consecutiveFailures := 5, openedAt := some 0,
        trialInFlight := false } 10 .ok).response = .breakerOpen :=
  ((breaker_open_rejects_before_timeout defaultBreakerConfig
    { mode := .Open, consecutiveFailures := 5, openedAt := some 0,
      trialInFlight := false } 0 10 rfl rfl (by decide)).2 .ok).1

/-- C3: reporting the single `HalfOpen` trial as a success transitions
the breaker to `Closed` with `consecutive_failures = 0`; reporting it as
a failure transitions back to `Open` with `opened_at` reset to now. -/
theorem halfopen_trial_outcome (cfg : BreakerConfig) (b : Breaker)
    (now : Nat) (hm : b.mode = .HalfOpen) :
    (report cfg b true now).mode = .Closed ∧
      (report cfg b true now).consecutiveFailures = 0 ∧
      (report cfg b false now).mode = .Open ∧
      (report cfg b false now).openedAt = some now := by
  obtain ⟨m, cf, oa, tf⟩ := b
  cases m <;> simp_all [report]

/-- Witness for C3: a `HalfOpen` breaker at time 42. -/
theorem halfopen_trial_outcome_witness :
    (report defaultBreakerConfig
      { mode := .HalfOpen, consecutiveFailures := 5, openedAt := some 0,
        trialInFlight := true } true 42).mode = .Closed :=
  (halfopen_trial_outcome defaultBreakerConfig
    { mode := .HalfOpen, consecutiveFailures := 5, openedAt := some 0,
      trialInFlight := true } 42 rfl).1

/-- C8: whenever `allow()` refuses a request, the gateway answers with
the breaker-open category and attempts no network call, and that category
is distinct from both downstream-error categories; conversely a request
that was actually attempted never yields the breaker-open category. -/
theorem router_breaker_open_distinct (cfg : BreakerConfig) (b : Breaker)
    (now : Nat) (d : DownstreamOutcome)
    (h : (allow cfg b now).1 = false) :
    (routeCall cfg b now d).response = .breakerOpen ∧
      (routeCall cfg b now d).attempted = false ∧
      GatewayResponse.breakerOpen ≠ GatewayResponse.downstreamUnavailable ∧
      GatewayResponse.breakerOpen ≠ GatewayResponse.downstreamTimeout ∧
      ∀ (b' : Breaker) (d' : DownstreamOutcome),
        (routeCall cfg b' now d').attempted = true →
          (routeCall cfg b' now d').response ≠ .breakerOpen := by
  refine ⟨?_, ?_, by decide, by decide, ?_⟩
  · simp [routeCall, h]
  · simp [routeCall, h]
  · intro b' d' hatt
    cases hb : (allow cfg b' now).1 with
    | true => cases d' <;> simp [routeCall, hb]
    | false => simp [routeCall, hb] at hatt

/-- Witness for C8: a just-opened breaker at time 0 with the defaults. -/
theorem router_breaker_open_distinct_witness :
    (routeCall defaultBreakerConfig
      { mode := .Open, consecutiveFailures := 5, openedAt := some 0,
        trialInFlight := false } 1 .serverError).attempted = false :=
  (router_breaker_open_distinct defaultBreakerConfig
    { mode := .Open, consecutiveFailures := 5, openedAt := some 0,
      trialInFlight := false } 1 .serverError (by decide)).2.1

/-! ## Submission and retrieval -/

/-- C6: every submission responds at once with the freshly generated
`job_id` and the initial status `Queued`; the persisted job itself is
appended in `Queued` state, never any other status. -/
theorem submit_returns_queued (s : JobStore) (owner : Nat) (q : String)
    (now : Nat) :
    (submit s owner q now).1.status = .queued ∧
      (submit s owner q now).1.jobId = s.nextId ∧
      ∃ j : SearchJob, (submit s owner q now).2.jobs = s.jobs ++ [j] ∧
        j.jobId = (submit s owner q now).1.jobId ∧
        j.status = .queued ∧ j.ownerId = owner ∧ j.query = q := by
  exact ⟨rfl, rfl, ⟨_, rfl, rfl, rfl, rfl, rfl⟩⟩

/-- C7: retrieval of an unknown `job_id` fails with `JobNotFound`
(HTTP 404) and retrieval by a requester other than the owner fails with
`JobAccessDenied` (HTTP 403); in both cases the store is returned
unchanged. -/
theorem get_errors_leave_store (s : JobStore) (id requester : Nat) :
    (s.jobs.find? (fun j => j.jobId = id) = none →
      get s id requester = (.error .jobNotFound, s) ∧
        httpStatus .jobNotFound = 404) ∧
    ∀ j : SearchJob, s.jobs.find? (fun j => j.jobId = id) = some j →
      j.ownerId ≠ requester →
        get s id requester = (.error .jobAccessDenied, s) ∧
          httpStatus .jobAccessDenied = 403 := by
  constructor
  · intro h
    exact ⟨by simp [get, h], rfl⟩
  · intro j h hown
    exact ⟨by simp [get, h, hown], rfl⟩

/-- Witness for C7: a store holding one job owned by user 1; job `99` is
unknown, and job `0` read by user 2 is forbidden. -/
theorem get_errors_leave_store_witness :
    (get sampleStore 99 1 = (.error .jobNotFound, sampleStore) ∧
      httpStatus .jobNotFound = 404) ∧
    (get sampleStore 0 2 = (.error .jobAccessDenied, sampleStore) ∧
      httpStatus .jobAccessDenied = 403) :=
  ⟨(get_errors_leave_store sampleStore 99 1).1 (by decide),
   (get_errors_leave_store sampleStore 0 2).2 sampleJob (by decide)
     (by decide)⟩

/-! ## Polling client -/

/-- C9: the client polling loop never terminates unless some poll
fulfils with status exactly `completed`: under a stream of outcomes none
of which passes the termination test (in particular a job that ends in
`failed`), every poll is issued and reschedules the next after the
hard-coded 500 ms delay; and in general the loop stops after poll `n`
only when poll `n` fulfilled with status `completed`. -/
theorem poll_loop_terminates_only_on_completed
    (responses : Nat → PollOutcome)
    (h : ∀ n, pollStops (responses n) = false) :
    (∀ n, pollActive responses n = true) ∧
      pollDelayMs = 500 ∧
      ∀ (r : Nat → PollOutcome) (n : Nat), pollActive r n = true →
        pollActive r (n + 1) = false → r n = .fulfilled "completed" := by
  refine ⟨?_, rfl, ?_⟩
  · intro n
    induction n with
    | zero => rfl
    | succ k ih => simp [pollActive, ih, h k]
  · intro r n hact hstop
    simp only [pollActive, hact, Bool.true_and, Bool.not_eq_false'] at hstop
    cases hr : r n with
    | fulfilled s =>
      rw [hr] at hstop
      simp only [pollStops, beq_iff_eq] at hstop
      rw [hstop]
    | rejected => rw [hr] at hstop; simp [pollStops] at hstop

/-- Witness for C9: a job that keeps answering `failed` leaves the loop
still polling at iteration 7. -/
theorem poll_loop_terminates_only_on_completed_witness :
    pollActive (fun _ => PollOutcome.fulfilled "failed") 7 = true :=
  (poll_loop_terminates_only_on_completed
    (fun _ => PollOutcome.fulfilled "failed")
    (fun _ => by simp [pollStops])).1 7

/-! ## Search slice reducer -/

/-- C10: the `getSearchResults.fulfilled` reducer is a no-op for every
payload whose status is not `completed` (results, loading, and the rest
of the state all unchanged); a `completed` payload overwrites `results`
with the payload's results (defaulting to the empty list) and clears
`loading`, leaving `error` and `currentJobId` untouched. -/
theorem slice_poll_updates_only_on_completed (st : SearchState)
    (p : JobStatusPayload) :
    (p.status ≠ "completed" → getSearchResultsFulfilled st p = st) ∧
      (p.status = "completed" →
        (getSearchResultsFulfilled st p).results = p.results.getD [] ∧
          (getSearchResultsFulfilled st p).loading = false ∧
          (getSearchResultsFulfilled st p).error = st.error ∧
          (getSearchResultsFulfilled st p).currentJobId = st.currentJobId) := by
  constructor
  · intro h
    simp [getSearchResultsFulfilled, h]
  · intro h
    simp [getSearchResultsFulfilled, h]

/-- Witness for C10: a `processing` poll leaves a loaded state with one
result untouched. -/
theorem slice_poll_updates_only_on_completed_witness :
    getSearchResultsFulfilled
      { results := [⟨3, "clip", 1, "alpha"⟩], loading := true,
        error := none, currentJobId := some "j1" }
      { status := "processing", results := none } =
      { results := [⟨3, "clip", 1, "alpha"⟩], loading := true,
        error := none, currentJobId := some "j1" } :=
  (slice_poll_updates_only_on_completed
    { results := [⟨3, "clip", 1, "alpha"⟩], loading := true,
      error := none, currentJobId := some "j1" }
    { status := "processing", results := none }).1 (by decide)

/-! ## Job-store lemmas -/

lemma list_find?_append {α} (p : α → Bool) (l₁ l₂ : List α) :
    (l₁ ++ l₂).find? p =
      match l₁.find? p with
      | some a => some a
      | none => l₂.find? p := by
  induction l₁ with
  | nil => rfl
  | cons a l ih =>
    cases ha : p a <;> simp [List.find?, ha, ih]

lemma list_find?_append_some {α} {p : α → Bool} {l₁ : List α} {a : α}
    (h : l₁.find? p = some a) (l₂ : List α) :
    (l₁ ++ l₂).find? p = some a := by
  rw [list_find?_append, h]

lemma list_find?_map_fix {α} (p : α → Bool) (f : α → α)
    (hstable : ∀ x, p (f x) = p x) (hfix : ∀ x, p x = true → f x = x)
    (l : List α) : (l.map f).find? p = l.find? p := by
  induction l with
  | nil => rfl
  | cons x l ih =>
    cases hx : p x with
    | true => simp [List.find?, hstable x, hx, hfix x hx]
    | false => simp [List.find?, hstable x, hx, ih]

lemma get_snd (s : JobStore) (a b : Nat) : (get s a b).2 = s := by
  unfold get
  cases s.jobs.find? (fun j => j.jobId = a) with
  | none => rfl
  | some j => by_cases h : j.ownerId = b <;> simp [h]

lemma claimFirst_preserves_nonqueued (now : Nat) (p : SearchJob → Bool)
    (hp : ∀ k, p (claimJob k now) = p k) :
    ∀ (l : List SearchJob) (c : SearchJob) (l' : List SearchJob),
      claimFirst now l = some (c, l') →
      ∀ j : SearchJob, l.find? p = some j → j.status ≠ .queued →
        l'.find? p = some j := by
  intro l
  induction l with
  | nil => intro c l' h; simp [claimFirst] at h
  | cons k rest ih =>
    intro c l' h j hfind hj
    by_cases hk : k.status = .queued
    · simp only [claimFirst, if_pos hk, Option.some.injEq, Prod.mk.injEq] at h
      obtain ⟨-, hl'⟩ := h
      cases hpk : p k with
      | true =>
        rw [List.find?_cons_of_pos _ hpk] at hfind
        exact absurd (hk ▸ (Option.some.inj hfind ▸ rfl : j.status = k.status))
          hj
      | false =>
        rw [List.find?_cons_of_neg _ (by simp [hpk])] at hfind
        rw [← hl', List.find?_cons_of_neg _ (by simp [hp k, hpk])]
        exact hfind
    · simp only [claimFirst, if_neg hk] at h
      cases hrec : claimFirst now rest with
      | none => rw [hrec] at h; simp at h
      | some pr =>
        obtain ⟨c0, rest'⟩ := pr
        rw [hrec] at h
        simp only [Option.some.injEq, Prod.mk.injEq] at h
        obtain ⟨-, hl'⟩ := h
        cases hpk : p k with
        | true =>
          rw [List.find?_cons_of_pos _ hpk] at hfind
          rw [← hl', List.find?_cons_of_pos _ hpk]
          exact hfind
        | false =>
          rw [List.find?_cons_of_neg _ (by simp [hpk])] at hfind
          rw [← hl', List.find?_cons_of_neg _ (by simp [hpk])]
          exact ih c0 rest' hrec j hfind hj

/-- C5: once a job is in a terminal state (`Completed` or `Failed`), no
operation of the job manager — submission, claiming, completion, failure,
or retrieval — changes its stored record, and every subsequent owner read
returns the identical terminal snapshot. -/
theorem terminal_snapshot_stable (s : JobStore) (id : Nat) (j : SearchJob)
    (hfind : s.jobs.find? (fun k => k.jobId = id) = some j)
    (hterm : j.status.isTerminal = true) (op : JobOp) :
    (applyOp s op).jobs.find? (fun k => k.jobId = id) = some j ∧
      (get (applyOp s op) id j.ownerId).1 = .ok j := by
  have hnq : j.status ≠ .queued := by
    intro h; rw [h] at hterm; simp [JobStatus.isTerminal] at hterm
  have hnp : j.status ≠ .processing := by
    intro h; rw [h] at hterm; simp [JobStatus.isTerminal] at hterm
  have hmain : (applyOp s op).jobs.find? (fun k => k.jobId = id) = some j := by
    cases op with
    | submit owner q now =>
      show ((submit s owner q now).2.jobs).find? _ = some j
      exact list_find?_append_some hfind _
    | claimNext now =>
      show ((claimNext s now).2.jobs).find? _ = some j
      unfold claimNext
      cases hcf : claimFirst now s.jobs with
      | none => simpa using hfind
      | some pr =>
        obtain ⟨c, l'⟩ := pr
        simp only
        exact claimFirst_preserves_nonqueued now (fun k => k.jobId = id)
          (fun k => rfl) s.jobs c l' hcf j hfind hnq
    | complete id' rs now =>
      show ((complete s id' rs now).2.jobs).find? _ = some j
      unfold complete
      cases hfd : s.jobs.find? (fun k => k.jobId = id') with
      | none => simpa using hfind
      | some j0 =>
        by_cases hst : j0.status = .processing
        · simp only [if_pos hst]
          by_cases hid : id' = id
          · subst hid
            rw [hfind] at hfd
            exact absurd (hst ▸ (Option.some.inj hfd ▸ rfl :
              j0.status = j.status).symm) hnp
          · refine (list_find?_map_fix _ _ ?_ ?_ s.jobs).trans hfind
            · intro x
              by_cases hx : x.jobId = id' <;> simp [hx]
            · intro x hx
              simp only [decide_eq_true_eq] at hx
              rw [if_neg (by rw [hx]; exact fun h => hid h.symm)]
        · simp only [if_neg hst]
          exact hfind
    | fail id' err now =>
      show ((fail s id' err now).2.jobs).find? _ = some j
      unfold fail
      cases hfd : s.jobs.find? (fun k => k.jobId = id') with
      | none => simpa using hfind
      | some j0 =>
        by_cases hst : j0.status = .processing
        · simp only [if_pos hst]
          by_cases hid : id' = id
          · subst hid
            rw [hfind] at hfd
            exact absurd (hst ▸ (Option.some.inj hfd ▸ rfl :
              j0.status = j.status).symm) hnp
          · refine (list_find?_map_fix _ _ ?_ ?_ s.jobs).trans hfind
            · intro x
              by_cases hx : x.jobId = id' <;> simp [hx]
            · intro x hx
              simp only [decide_eq_true_eq] at hx
              rw [if_neg (by rw [hx]; exact fun h => hid h.symm)]
        · simp only [if_neg hst]
          exact hfind
    | get a b =>
      show (((get s a b).2).jobs).find? _ = some j
      rw [get_snd]
      exact hfind
  refine ⟨hmain, ?_⟩
  unfold get
  rw [hmain]
  simp

/-- Witness for C5: the completed sample job survives an attempt to fail
it, and its owner still reads the identical snapshot. -/
theorem terminal_snapshot_stable_witness :
    (applyOp sampleStore (.fail 0 "late" 9)).jobs.find?
        (fun k => k.jobId = 0) = some sampleJob ∧
      (get (applyOp sampleStore (.fail 0 "late" 9)) 0
        sampleJob.ownerId).1 = .ok sampleJob :=
  terminal_snapshot_stable sampleStore 0 sampleJob (by decide) (by decide)
    (.fail 0 "late" 9)

/-! ## Claim-uniqueness machinery -/

lemma claimFirst_eq (now : Nat) :
    ∀ (l : List SearchJob) (c : SearchJob) (l' : List SearchJob),
      claimFirst now l = some (c, l') →
      ∃ a jq b, l = a ++ jq :: b ∧ l' = a ++ claimJob jq now :: b ∧
        jq.status = .queued ∧ c = claimJob jq now := by
  intro l
  induction l with
  | nil => intro c l' h; simp [claimFirst] at h
  | cons k rest ih =>
    intro c l' h
    by_cases hk : k.status = .queued
    · simp only [claimFirst, if_pos hk, Option.some.injEq, Prod.mk.injEq] at h
      obtain ⟨hc, hl'⟩ := h
      exact ⟨[], k, rest, rfl, by rw [← hl']; rfl, hk, hc.symm⟩
    · simp only [claimFirst, if_neg hk] at h
      cases hrec : claimFirst now rest with
      | none => rw [hrec] at h; simp at h
      | some pr =>
        obtain ⟨c0, rest'⟩ := pr
        rw [hrec] at h
        simp only [Option.some.injEq, Prod.mk.injEq] at h
        obtain ⟨hc, hl'⟩ := h
        obtain ⟨a, jq, b, h1, h2, h3, h4⟩ := ih c0 rest' hrec
        exact ⟨k :: a, jq, b, by rw [h1]; rfl,
          by rw [← hl', h2]; rfl, h3, hc ▸ h4⟩

lemma map_jobId_fix (f : SearchJob → SearchJob)
    (hf : ∀ k, (f k).jobId = k.jobId) (l : List SearchJob) :
    (l.map f).map (fun j => j.jobId) = l.map (fun j => j.jobId) := by
  induction l with
  | nil => rfl
  | cons k rest ih => simp [hf, ih]

lemma wf_applyOp (s : JobStore) (op : JobOp) (h : Wf s) : Wf (applyOp s op) := by
  obtain ⟨hnd, hlt⟩ := h
  cases op with
  | submit owner q now =>
    constructor
    · show ((s.jobs ++ [_]).map _).Nodup
      rw [List.map_append, List.nodup_append]
      refine ⟨hnd, List.nodup_singleton _, ?_⟩
      intro x hx hx'
      simp only [List.map_cons, List.map_nil, List.mem_singleton] at hx'
      obtain ⟨j, hj, hjx⟩ := List.mem_map.mp hx
      have := hlt j hj
      omega
    · intro j hj
      rcases List.mem_append.mp hj with h1 | h2
      · exact Nat.lt_succ_of_lt (hlt j h1)
      · simp only [List.mem_singleton] at h2
        rw [h2]
        exact Nat.lt_succ_self _
  | claimNext now =>
    show Wf (claimNext s now).2
    unfold claimNext
    cases hcf : claimFirst now s.jobs with
    | none => exact ⟨hnd, hlt⟩
    | some pr =>
      obtain ⟨c, l'⟩ := pr
      obtain ⟨a, jq, b, hl, hl', hq, hc⟩ := claimFirst_eq now s.jobs c l' hcf
      constructor
      · show (l'.map _).Nodup
        have h2 : l'.map (fun j => j.jobId) =
            s.jobs.map (fun j => j.jobId) := by
          rw [hl', hl]
          simp [claimJob]
        rw [h2]
        exact hnd
      · intro j hj
        show j.jobId < s.nextId
        rw [hl'] at hj
        rcases List.mem_append.mp hj with h1 | h2
        · exact hlt j (by rw [hl]; exact List.mem_append.mpr (Or.inl h1))
        · rcases List.mem_cons.mp h2 with h3 | h4
          · rw [h3]
            exact hlt jq (by rw [hl]; simp)
          · exact hlt j (by rw [hl]; simp [h4])
  | complete id rs now =>
    show Wf (complete s id rs now).2
    unfold complete
    cases hfd : s.jobs.find? (fun j => j.jobId = id) with
    | none => exact ⟨hnd, hlt⟩
    | some j0 =>
      by_cases hst : j0.status = .processing
      · simp only [if_pos hst]
        constructor
        · show ((s.jobs.map _).map _).Nodup
          rw [map_jobId_fix]
          · exact hnd
          · intro k
            by_cases hxk : k.jobId = id <;> simp [hxk]
        · intro j hj
          obtain ⟨y, hy, hyx⟩ := List.mem_map.mp hj
          have hid : j.jobId = y.jobId := by
            rw [← hyx]
            by_cases hxy : y.jobId = id <;> simp [hxy]
          rw [hid]
          exact hlt y hy
      · simp only [if_neg hst]
        exact ⟨hnd, hlt⟩
  | fail id err now =>
    show Wf (fail s id err now).2
    unfold fail
    cases hfd : s.jobs.find? (fun j => j.jobId = id) with
    | none => exact ⟨hnd, hlt⟩
    | some j0 =>
      by_cases hst : j0.status = .processing
      · simp only [if_pos hst]
        constructor
        · show ((s.jobs.map _).map _).Nodup
          rw [map_jobId_fix]
          · exact hnd
          · intro k
            by_cases hxk : k.jobId = id <;> simp [hxk]
        · intro j hj
          obtain ⟨y, hy, hyx⟩ := List.mem_map.mp hj
          have hid : j.jobId = y.jobId := by
            rw [← hyx]
            by_cases hxy : y.jobId = id <;> simp [hxy]
          rw [hid]
          exact hlt y hy
      · simp only [if_neg hst]
        exact ⟨hnd, hlt⟩
  | get a b =>
    show Wf (get s a b).2
    rw [get_snd]
    exact ⟨hnd, hlt⟩

lemma applyOp_nextId_le (s : JobStore) (op : JobOp) :
    s.nextId ≤ (applyOp s op).nextId := by
  cases op with
  | submit owner q now => exact Nat.le_succ _
  | claimNext now =>
    show s.nextId ≤ (claimNext s now).2.nextId
    unfold claimNext
    cases hcf : claimFirst now s.jobs with
    | none => exact Nat.le_refl _
    | some pr => obtain ⟨c, l'⟩ := pr; exact Nat.le_refl _
  | complete id rs now =>
    show s.nextId ≤ (complete s id rs now).2.nextId
    unfold complete
    cases hfd : s.jobs.find? (fun j => j.jobId = id) with
    | none => exact Nat.le_refl _
    | some j0 =>
      by_cases hst : j0.status = .processing
      · simp only [if_pos hst]; exact Nat.le_refl _
      · simp only [if_neg hst]; exact Nat.le_refl _
  | fail id err now =>
    show s.nextId ≤ (fail s id err now).2.nextId
    unfold fail
    cases hfd : s.jobs.find? (fun j => j.jobId = id) with
    | none => exact Nat.le_refl _
    | some j0 =>
      by_cases hst : j0.status = .processing
      · simp only [if_pos hst]; exact Nat.le_refl _
      · simp only [if_neg hst]; exact Nat.le_refl _
  | get a b =>
    show s.nextId ≤ (get s a b).2.nextId
    rw [get_snd]

lemma queued_provenance (s : JobStore) (op : JobOp) :
    ∀ x ∈ (applyOp s op).jobs, x.status = .queued →
      (∃ y ∈ s.jobs, y.jobId = x.jobId ∧ y.status = .queued) ∨
        s.nextId ≤ x.jobId := by
  intro x hx hq
  cases op with
  | submit owner q now =>
    rcases List.mem_append.mp hx with h1 | h2
    · exact Or.inl ⟨x, h1, rfl, hq⟩
    · simp only [List.mem_singleton] at h2
      right
      rw [h2]
  | claimNext now =>
    revert hx
    show x ∈ (claimNext s now).2.jobs → _
    unfold claimNext
    cases hcf : claimFirst now s.jobs with
    | none => intro hx; exact Or.inl ⟨x, hx, rfl, hq⟩
    | some pr =>
      obtain ⟨c, l'⟩ := pr
      obtain ⟨a, jq, b, hl, hl', hqq, hc⟩ := claimFirst_eq now s.jobs c l' hcf
      intro hx
      simp only at hx
      rw [hl'] at hx
      rcases List.mem_append.mp hx with h1 | h2
      · exact Or.inl ⟨x, by rw [hl]; exact List.mem_append.mpr (Or.inl h1),
          rfl, hq⟩
      · rcases List.mem_cons.mp h2 with h3 | h4
        · rw [h3] at hq
          exact absurd hq (by simp [claimJob])
        · exact Or.inl ⟨x, by rw [hl]; simp [h4], rfl, hq⟩
  | complete id rs now =>
    revert hx
    show x ∈ (complete s id rs now).2.jobs → _
    unfold complete
    cases hfd : s.jobs.find? (fun j => j.jobId = id) with
    | none => intro hx; exact Or.inl ⟨x, hx, rfl, hq⟩
    | some j0 =>
      by_cases hst : j0.status = .processing
      · simp only [if_pos hst]
        intro hx
        obtain ⟨y, hy, hyx⟩ := List.mem_map.mp hx
        by_cases hxy : y.jobId = id
        · rw [if_pos hxy] at hyx
          rw [← hyx] at hq
          simp at hq
        · rw [if_neg hxy] at hyx
          rw [← hyx]
          exact Or.inl ⟨y, hy, rfl, hyx ▸ hq⟩
      · simp only [if_neg hst]
        intro hx
        exact Or.inl ⟨x, hx, rfl, hq⟩
  | fail id err now =>
    revert hx
    show x ∈ (fail s id err now).2.jobs → _
    unfold fail
    cases hfd : s.jobs.find? (fun j => j.jobId = id) with
    | none => intro hx; exact Or.inl ⟨x, hx, rfl, hq⟩
    | some j0 =>
      by_cases hst : j0.status = .processing
      · simp only [if_pos hst]
        intro hx
        obtain ⟨y, hy, hyx⟩ := List.mem_map.mp hx
        by_cases hxy : y.jobId = id
        · rw [if_pos hxy] at hyx
          rw [← hyx] at hq
          simp at hq
        · rw [if_neg hxy] at hyx
          rw [← hyx]
          exact Or.inl ⟨y, hy, rfl, hyx ▸ hq⟩
      · simp only [if_neg hst]
        intro hx
        exact Or.inl ⟨x, hx, rfl, hq⟩
  | get a b =>
    revert hx
    show x ∈ (get s a b).2.jobs → _
    rw [get_snd]
    intro hx
    exact Or.inl ⟨x, hx, rfl, hq⟩

lemma runClaims_cons_other (s : JobStore) (op : JobOp) (rest : List JobOp)
    (h : ∀ now, op ≠ .claimNext now) :
    runClaims s (op :: rest) = runClaims (applyOp s op) rest := by
  cases op with
  | claimNext now => exact absurd rfl (h now)
  | submit o q n => rfl
  | complete i r n => rfl
  | fail i e n => rfl
  | get a b => rfl

lemma runClaims_claim_some (s : JobStore) (now : Nat) (rest : List JobOp)
    (c : SearchJob) (l' : List SearchJob)
    (hcf : claimFirst now s.jobs = some (c, l')) :
    runClaims s (.claimNext now :: rest) =
      c.jobId :: runClaims { s with jobs := l' } rest := by
  simp [runClaims, claimNext, hcf]

lemma runClaims_claim_none (s : JobStore) (now : Nat) (rest : List JobOp)
    (hcf : claimFirst now s.jobs = none) :
    runClaims s (.claimNext now :: rest) = runClaims s rest := by
  simp [runClaims, claimNext, hcf]

lemma runClaims_spec (ops : List JobOp) :
    ∀ s : JobStore, Wf s →
      (runClaims s ops).Nodup ∧
        ∀ id ∈ runClaims s ops,
          (∃ k ∈ s.jobs, k.jobId = id ∧ k.status = .queued) ∨
            s.nextId ≤ id := by
  induction ops with
  | nil =>
    intro s _
    exact ⟨List.nodup_nil, by intro id h; simp [runClaims] at h⟩
  | cons op rest ih =>
    intro s hwf
    by_cases hop : ∃ now, op = .claimNext now
    · obtain ⟨now, rfl⟩ := hop
      cases hcf : claimFirst now s.jobs with
      | none =>
        rw [runClaims_claim_none s now rest hcf]
        exact ih s hwf
      | some pr =>
        obtain ⟨c, l'⟩ := pr
        rw [runClaims_claim_some s now rest c l' hcf]
        obtain ⟨a, jq, b, hl, hl', hq, hc⟩ := claimFirst_eq now s.jobs c l' hcf
        have hwf' : Wf { s with jobs := l' } := by
          have := wf_applyOp s (.claimNext now) hwf
          simpa [applyOp, claimNext, hcf] using this
        obtain ⟨hnd, hmem⟩ := ih { s with jobs := l' } hwf'
        have hcid : c.jobId = jq.jobId := by rw [hc]; rfl
        have hids : s.jobs.map (fun j => j.jobId) =
            a.map (fun j => j.jobId) ++
              jq.jobId :: b.map (fun j => j.jobId) := by
          rw [hl]; simp
        have hnds := hwf.1
        rw [hids, List.nodup_middle] at hnds
        have hnotm := (List.nodup_cons.mp hnds).1
        constructor
        · rw [List.nodup_cons]
          refine ⟨?_, hnd⟩
          intro hin
          rcases hmem c.jobId hin with ⟨k, hk, hkid, hkq⟩ | hge
          · have hk' : k ∈ l' := hk
            rw [hl'] at hk'
            rcases List.mem_append.mp hk' with h1 | h2
            · exact hnotm (List.mem_append.mpr (Or.inl
                (List.mem_map.mpr ⟨k, h1, by rw [hkid, hcid]⟩)))
            · rcases List.mem_cons.mp h2 with h3 | h4
              · rw [h3] at hkq
                simp [claimJob] at hkq
              · exact hnotm (List.mem_append.mpr (Or.inr
                  (List.mem_map.mpr ⟨k, h4, by rw [hkid, hcid]⟩)))
          · have hlt : jq.jobId < s.nextId := hwf.2 jq (by rw [hl]; simp)
            have hge' : s.nextId ≤ c.jobId := hge
            rw [hcid] at hge'
            omega
        · intro id hid
          rcases List.mem_cons.mp hid with h1 | h2
          · exact Or.inl ⟨jq, by rw [hl]; simp, by rw [h1, hcid], hq⟩
          · rcases hmem id h2 with ⟨k, hk, hkid, hkq⟩ | hge
            · have hk' : k ∈ l' := hk
              rw [hl'] at hk'
              rcases List.mem_append.mp hk' with ha | hb
              · refine Or.inl ⟨k, ?_, hkid, hkq⟩
                rw [hl]
                exact List.mem_append.mpr (Or.inl ha)
              · rcases List.mem_cons.mp hb with h3 | h4
                · rw [h3] at hkq
                  simp [claimJob] at hkq
                · refine Or.inl ⟨k, ?_, hkid, hkq⟩
                  rw [hl]
                  simp [h4]
            · exact Or.inr hge
    · have hne : ∀ now, op ≠ .claimNext now := fun now h => hop ⟨now, h⟩
      rw [runClaims_cons_other s op rest hne]
      obtain ⟨hnd, hmem⟩ := ih (applyOp s op) (wf_applyOp s op hwf)
      refine ⟨hnd, ?_⟩
      intro id hid
      rcases hmem id hid with ⟨k, hk, hkid, hkq⟩ | hge
      · rcases queued_provenance s op k hk hkq with ⟨y, hy, hyid, hyq⟩ | hge'
        · exact Or.inl ⟨y, hy, by rw [hyid, hkid], hyq⟩
        · right
          rw [← hkid]
          exact hge'
      · exact Or.inr (le_trans (applyOp_nextId_le s op) hge)

/-- C4: under any interleaved sequence of atomic job-manager operations
starting from a well-formed store, `claim_next` never hands the same
`job_id` to two callers — the claimed identifiers are pairwise distinct —
and every claim atomically moves the job to `Processing` with
`started_at` set. -/
theorem claim_next_unique (s : JobStore) (ops : List JobOp) (hwf : Wf s) :
    (runClaims s ops).Nodup ∧
      ∀ (s2 : JobStore) (now : Nat) (c : SearchJob),
        (claimNext s2 now).1 = some c →
          c.status = .processing ∧ c.startedAt = some now := by
  refine ⟨(runClaims_spec ops s hwf).1, ?_⟩
  intro s2 now c h
  unfold claimNext at h
  cases hcf : claimFirst now s2.jobs with
  | none => rw [hcf] at h; simp at h
  | some pr =>
    obtain ⟨c0, l'⟩ := pr
    rw [hcf] at h
    simp only [Option.some.injEq] at h
    obtain ⟨a, jq, b, -, -, -, hc⟩ := claimFirst_eq now s2.jobs c0 l' hcf
    rw [← h, hc]
    exact ⟨rfl, rfl⟩

/-- Witness for C4: submit one job, then two racing claims; only one
claim yields the job, so the claimed identifiers are distinct. -/
theorem claim_next_unique_witness :
    (runClaims emptyStore
      [.submit 1 "alpha" 0, .claimNext 1, .claimNext 2]).Nodup :=
  (claim_next_unique emptyStore
    [.submit 1 "alpha" 0, .claimNext 1, .claimNext 2] (by decide)).1

end Spec2Proof
